import Mathlib

/-
  Verification development for kernel/power/wakelock.c (named wakelock
  registry with LRU garbage collection and a screen-off acquisition filter).

  C strings are modelled as `List Char`: the list holds the characters that
  precede the NUL terminator, so a list coming from a C string never
  contains the NUL character itself.  Machine integers are modelled as
  `Nat` with explicit `% 2 ^ 64` / `% 2 ^ 32` where overflow can occur.
  External kernel primitives (wakeup sources, the work queue, allocation)
  are out of scope per the spec; allocation is modelled as always
  succeeding and the calls into the wakeup-source API are recorded as an
  explicit effect value rather than simulated.
-/

/-- The NUL character, the terminator of a C string. -/
def NUL : Char := Char.ofNat 0

/-- Kernel ctype `isspace`: space and the five control characters 0x09-0x0d. -/
def isspace (c : Char) : Bool :=
  c == ' ' || c == '\t' || c == '\n' || c == Char.ofNat 11 || c == Char.ofNat 12 || c == '\r'

/-- Kernel `skip_spaces`: advance past leading whitespace. -/
def skip_spaces (s : List Char) : List Char :=
  s.dropWhile (fun c => isspace c)

/-- Does `hay` start with `needle`?  (The inner loop of C `strstr`.) -/
def strstarts : List Char → List Char → Bool
  | _, [] => true
  | [], _ :: _ => false
  | h :: hs, n :: ns => h == n && strstarts hs ns

/-- C `strstr hay needle ≠ NULL`: `needle` occurs contiguously in `hay`. -/
def strstr_ : List Char → List Char → Bool
  | [], needle => strstarts [] needle
  | h :: t, needle => strstarts (h :: t) needle || strstr_ t needle

/-- C `strncmp a b n`: compare at most `n` characters, stopping at a NUL
terminator (a list end stands for the terminator).  Only the sign of the
result is used by the program. -/
def strncmp_ : List Char → List Char → Nat → Int
  | _, _, 0 => 0
  | [], [], _ + 1 => 0
  | [], c :: _, _ + 1 => -(c.toNat : Int)
  | c :: _, [], _ + 1 => (c.toNat : Int)
  | a :: as, b :: bs, n + 1 =>
      if a == b then (if a == NUL then 0 else strncmp_ as bs n)
      else (a.toNat : Int) - (b.toNat : Int)

/-- C `kstrndup s len`: duplicate at most `len` characters of `s`, stopping
at a NUL terminator. -/
def kstrndup_ (s : List Char) (len : Nat) : List Char :=
  (s.take len).takeWhile (fun c => !(c == NUL))

/-- Value of a most-significant-digit-first decimal digit string. -/
def digitsToNat (l : List Char) : Nat :=
  l.foldl (fun acc c => acc * 10 + (c.toNat - 48)) 0

/-- Kernel `kstrtou64` with base 10: an optional leading plus sign, a
nonempty run of decimal digits whose value fits in 64 bits, an optional
single trailing newline, and nothing else.  `none` stands for either error
return (-EINVAL for a malformed string, -ERANGE for overflow); the caller
in `pm_wake_lock` collapses both to -EINVAL. -/
def kstrtou64 (s : List Char) : Option Nat :=
  let s1 := match s with
    | c :: rest => if c == '+' then rest else s
    | [] => s
  let ds := s1.takeWhile (fun c => c.isDigit)
  let rest := s1.dropWhile (fun c => c.isDigit)
  if ds.isEmpty then none
  else if 2 ^ 64 ≤ digitsToNat ds then none
  else
    let rest2 := match rest with
      | c :: r => if c == '\n' then r else rest
      | [] => rest
    if rest2.isEmpty then some (digitsToNat ds) else none

/-! ## The acquisition filter (wakelock.c lines 164-198) -/

/-- The deny list `blocked_wakelocks[]` (the C array's NULL sentinel is the
end of the list). -/
def blocked_wakelocks : List (List Char) :=
  [("ufs_hba").data, ("ufs_pm").data, ("ufsclks").data, ("ufs-event").data,
   ("ufs-busmon").data, ("scsi_eh").data, ("sdcardfs").data, ("vold").data,
   ("wlan_timer").data, ("wifi_low_latency").data,
   ("net_scheduler").data, ("ipa_ws").data,
   ("logd").data, ("dp_wakelock").data, ("system_suspend").data, ("ssr").data]

/-- The chained `strstr` always-allow test of `should_block_wakelock`
(lines 187-191), factored into a definition. -/
def any_allow_sub (s : List Char) : Bool :=
  strstr_ s (("dt2w").data) || strstr_ s (("double_tap").data) ||
  strstr_ s (("faceunlock").data) || strstr_ s (("facerecog").data) ||
  strstr_ s (("media").data) || strstr_ s (("audio").data) ||
  strstr_ s (("video").data)

/-- The deny-list loop of `should_block_wakelock` (lines 193-196). -/
def any_deny_sub (s : List Char) : Bool :=
  blocked_wakelocks.any (fun p => strstr_ s p)

/-- `should_block_wakelock` (lines 180-198).  The global flag
`sensor_event_active` is passed explicitly. -/
def should_block_wakelock (sensor_event_active : Bool) (name : List Char) : Bool :=
  if sensor_event_active then false
  else if any_allow_sub name then false
  else any_deny_sub name

/-- Veto predicate following the words of the specification and of the
claim: the decision as a function of the requested NAME token (rather than
of the whole request buffer, which is what the code passes to
`should_block_wakelock`).  Used only to compare against the code. -/
def spec_veto_of_name (screen_is_off sensor_event_active : Bool) (n : List Char) : Bool :=
  screen_is_off && !sensor_event_active && !(any_allow_sub n) && any_deny_sub n

/-! ## The registry: wakelock records, the rb-tree name index, the LRU list -/

/-- A `struct wakelock` together with the snapshot of its owned wakeup
source that the program reads (`wl->ws->active`, `wl->ws->last_time`).
`id` models the struct's identity (its address). -/
structure Wakelock where
  id : Nat
  name : List Char
  active : Bool
  last_time : Nat
deriving DecidableEq

/-- The name index `wakelocks_tree`.  The red-black tree is modelled as a
plain binary search tree: `rb_link_node` places a new node at exactly the
leaf position where the search loop fell off, and the `rb_insert_color`
rebalancing changes only the shape, never the membership or the search
order, so it is elided. -/
inductive Wltree where
  | leaf
  | node (left : Wltree) (wl : Wakelock) (right : Wltree)
deriving DecidableEq

/-- In-order contents of the name index. -/
def Wltree.toList : Wltree → List Wakelock
  | .leaf => []
  | .node l wl r => toList l ++ wl :: toList r

/-- Splice one subtree under the rightmost leaf of another (used to model
`rb_erase` unlinking a node while keeping both its subtrees). -/
def Wltree.graft : Wltree → Wltree → Wltree
  | .leaf, r => r
  | .node a wl b, r => .node a wl (Wltree.graft b r)

/-- `rb_erase`: unlink the node with the given identity from the tree
(shape after rebalancing elided, as for insertion). -/
def rb_erase_ (i : Nat) : Wltree → Wltree
  | .leaf => .leaf
  | .node l wl r =>
      if wl.id == i then Wltree.graft (rb_erase_ i l) (rb_erase_ i r)
      else .node (rb_erase_ i l) wl (rb_erase_ i r)

/-- Process-wide registry state: the name index, the LRU list
`wakelocks_lru_list` (head = most recently touched, holding the same
records as the tree), the counter `number_of_wakelocks`, and the next
fresh record identity. -/
structure WlState where
  tree : Wltree
  lru : List Wakelock
  count : Nat
  nextId : Nat
deriving DecidableEq

/-- The registry at system start: empty. -/
def emptyState : WlState :=
  { tree := .leaf, lru := [], count := 0, nextId := 0 }

def EPERM : Int := 1
def EINVAL : Int := 22
def ENOSPC : Int := 28

/-- `wakelocks_limit_exceeded` (lines 51-60): when a maximum is configured
(`CONFIG_PM_WAKELOCKS_LIMIT > 0`, modelled by `0 < limit`) the check is
`number_of_wakelocks > limit`; otherwise the stub returns false. -/
def wakelocks_limit_exceeded (limit : Nat) (n : Nat) : Bool :=
  if 0 < limit then decide (limit < n) else false

/-- `increment_wakelocks_number`: counts only when a maximum is configured. -/
def increment_wakelocks_number (limit : Nat) (n : Nat) : Nat :=
  if 0 < limit then n + 1 else n

/-- `decrement_wakelocks_number`.  The C counter is an unsigned int; the
model uses `Nat` truncated subtraction, which agrees with it on every
state where live records are counted (the counter never underflows there). -/
def decrement_wakelocks_number (limit : Nat) (n : Nat) : Nat :=
  if 0 < limit then n - 1 else n

/-- The comparison step of the `wakelock_lookup_add` search loop
(lines 122-136): `diff = strncmp(name, wl->name, len)`, and on a tie the
`wl->name[len]` terminator check turns a strict extension of the query
into `diff = -1`; result 0 means "found". -/
def wl_diff (name : List Char) (len : Nat) (wl : Wakelock) : Int :=
  let d := strncmp_ name wl.name len
  if d == 0 then (if len < wl.name.length then -1 else 0) else d

/-- The search side of the `wakelock_lookup_add` loop. -/
def wl_find (name : List Char) (len : Nat) : Wltree → Option Wakelock
  | .leaf => none
  | .node l wl r =>
      let d := wl_diff name len wl
      if d == 0 then some wl
      else if d < 0 then wl_find name len l
      else wl_find name len r

/-- The insertion side of `wakelock_lookup_add`: descend by the same
comparison and link the new record at the leaf where the search fell off
(`rb_link_node`).  Only ever used after the search returned nothing, so no
node on the path compares equal. -/
def wl_insertAt (name : List Char) (len : Nat) (newWl : Wakelock) : Wltree → Wltree
  | .leaf => .node .leaf newWl .leaf
  | .node l wl r =>
      if wl_diff name len wl < 0 then .node (wl_insertAt name len newWl l) wl r
      else .node l wl (wl_insertAt name len newWl r)

/-- `wakelock_lookup_add` (lines 117-162).  The C function's single loop
both searches and remembers the insertion point; the model splits it into
`wl_find` and `wl_insertAt`, which follow the identical comparison path.
On creation: the name is `kstrndup`-ed, the wakeup source is registered
(fresh, inactive) and its `last_time` set to now (line 156), the record is
linked into the tree, added at the head of the LRU list
(`wakelocks_lru_add` = `list_add`), and the counter incremented.
Allocation failures (-ENOMEM paths) are not modelled: allocation is
assumed to succeed. -/
def wakelock_lookup_add (limit : Nat) (name : List Char) (len : Nat)
    (add_if_not_found : Bool) (now : Nat) (st : WlState) :
    Except Int Wakelock × WlState :=
  match wl_find name len st.tree with
  | some wl => (.ok wl, st)
  | none =>
      if !add_if_not_found then (.error (-EINVAL), st)
      else if wakelocks_limit_exceeded limit st.count then (.error (-ENOSPC), st)
      else
        let wl : Wakelock :=
          { id := st.nextId, name := kstrndup_ name len, active := false, last_time := now }
        (.ok wl,
         { tree := wl_insertAt name len wl st.tree,
           lru := wl :: st.lru,
           count := increment_wakelocks_number limit st.count,
           nextId := st.nextId + 1 })

/-- `wakelocks_lru_most_recent` = `list_move` to the list head. -/
def wakelocks_lru_most_recent (wl : Wakelock) (lru : List Wakelock) : List Wakelock :=
  wl :: lru.eraseP (fun w => w.id == wl.id)

/-! ## Acquire and release (wakelock.c lines 223-300) -/

def NSEC_PER_MSEC : Nat := 1000000
def U64_MOD : Nat := 2 ^ 64
def UINT_MOD : Nat := 2 ^ 32

/-- The millisecond deadline computed by `pm_wake_lock` (lines 258-260):
`timeout_ms = timeout_ns + NSEC_PER_MSEC - 1` in u64 arithmetic (the
addition wraps modulo 2^64), then `do_div` by `NSEC_PER_MSEC`.  The final
`% 2 ^ 32` models the value being passed to the `unsigned int msec`
parameter of the external kernel API `__pm_wakeup_event`. -/
def timeout_msec (timeout_ns : Nat) : Nat :=
  (((timeout_ns + (NSEC_PER_MSEC - 1)) % U64_MOD) / NSEC_PER_MSEC) % UINT_MOD

/-- The timeout-parsing step of `pm_wake_lock` (lines 246-250): parse only
when trailing content exists and its first character is not a newline,
else the timeout stays 0; a parse error makes the call fail. -/
def pm_parse_timeout (str_ : List Char) : Option Nat :=
  match str_ with
  | [] => some 0
  | c :: _ => if c == '\n' then some 0 else kstrtou64 (skip_spaces str_)

/-- The call made into the external wakeup-source primitive by a
successful acquire: `__pm_stay_awake` or `__pm_wakeup_event` with a
millisecond deadline.  The primitive's internal effect is out of scope;
the model records which call was made on which record. -/
inductive WsCall where
  | stayAwake (id : Nat)
  | wakeupEvent (id : Nat) (msec : Nat)
deriving DecidableEq

/-- `pm_wake_lock` (lines 223-269).  The globals are passed explicitly:
`capable` is the CAP_BLOCK_SUSPEND check, `limit` the configured maximum,
`screen_is_off` / `sensor_event_active` the filter flags, `now` the
current `ktime_get()` value.  Returns the C return value, the registry
state after the call, and the wakeup-source call made (if any). -/
def pm_wake_lock (capable : Bool) (limit : Nat) (screen_is_off sensor_event_active : Bool)
    (buf : List Char) (now : Nat) (st : WlState) : Int × WlState × Option WsCall :=
  if !capable then (-EPERM, st, none)
  else
    let len := (buf.takeWhile (fun c => !isspace c)).length
    if len = 0 then (-EINVAL, st, none)
    else if screen_is_off && should_block_wakelock sensor_event_active buf then
      (0, st, none)
    else
      match pm_parse_timeout (buf.drop len) with
      | none => (-EINVAL, st, none)
      | some timeout_ns =>
          match wakelock_lookup_add limit buf len true now st with
          | (.error e, st1) => (e, st1, none)
          | (.ok wl, st1) =>
              let call := if timeout_ns ≠ 0 then WsCall.wakeupEvent wl.id (timeout_msec timeout_ns)
                          else WsCall.stayAwake wl.id
              (0, { st1 with lru := wakelocks_lru_most_recent wl st1.lru }, some call)

/-- `pm_wake_unlock` (lines 271-300): capability check, strip one trailing
newline, the name must already exist (`add_if_not_found = false`), then
`__pm_relax` (external) and a move to the most-recent end; `wakelocks_gc`
only schedules asynchronous work, so the sweep itself is not part of this
call. -/
def pm_wake_unlock (capable : Bool) (limit : Nat) (buf : List Char) (st : WlState) :
    Int × WlState :=
  if !capable then (-EPERM, st)
  else
    let len0 := buf.length
    if len0 = 0 then (-EINVAL, st)
    else
      let len := if buf.getLast? == some '\n' then len0 - 1 else len0
      if len = 0 then (-EINVAL, st)
      else
        match wakelock_lookup_add limit buf len false 0 st with
        | (.error e, st1) => (e, st1)
        | (.ok wl, st1) => (0, { st1 with lru := wakelocks_lru_most_recent wl st1.lru })

/-! ## The garbage-collection sweep (wakelock.c lines 62-110) -/

/-- `WL_GC_TIME_SEC * NSEC_PER_SEC` = 300 seconds in nanoseconds. -/
def WL_GC_TIME_NS : Nat := 300 * 1000000000

/-- `ktime_to_ns(ktime_sub(now, last_time))` stored into a u64: a signed
64-bit difference reinterpreted as unsigned (a negative difference becomes
a huge value). -/
def idle_ns (now last_t : Nat) : Nat :=
  (((now : Int) - (last_t : Int)) % (2 ^ 64 : Int)).toNat

structure GcResult where
  survivors : List Wakelock
  destroyed : List Wakelock
deriving DecidableEq

/-- The loop body of `__wakelocks_gc` (lines 77-94) over the LRU list in
traversal order (`list_for_each_entry_safe_reverse` starts at the tail,
the least recently touched record): stop at the first record idle for
less than the threshold; destroy an inactive over-threshold record; keep
an active one and continue.  Returns the surviving records (in scan
order) and the destroyed ones. -/
def gc_scan (now : Nat) : List Wakelock → GcResult
  | [] => { survivors := [], destroyed := [] }
  | wl :: rest =>
      if idle_ns now wl.last_time < WL_GC_TIME_NS then
        { survivors := wl :: rest, destroyed := [] }
      else if !wl.active then
        let r := gc_scan now rest
        { survivors := r.survivors, destroyed := wl :: r.destroyed }
      else
        let r := gc_scan now rest
        { survivors := wl :: r.survivors, destroyed := r.destroyed }

/-- The scan-continuation predicate of the sweep as a Boolean: the record
has been idle for at least the threshold. -/
def gc_past_threshold (now : Nat) (w : Wakelock) : Bool :=
  decide (WL_GC_TIME_NS ≤ idle_ns now w.last_time)

/-- `__wakelocks_gc` (lines 71-97), state effect: each destroyed record is
unregistered (external), erased from the tree, deleted from the LRU list,
freed, and the counter decremented. -/
def __wakelocks_gc (limit : Nat) (now : Nat) (st : WlState) : WlState :=
  let r := gc_scan now st.lru.reverse
  { tree := r.destroyed.foldl (fun t wl => rb_erase_ wl.id t) st.tree,
    lru := r.survivors.reverse,
    count := r.destroyed.foldl (fun n _ => decrement_wakelocks_number limit n) st.count,
    nextId := st.nextId }

/-! ## Claim theorems -/

/-- Claim C10: both `pm_wake_lock` and `pm_wake_unlock` check the
CAP_BLOCK_SUSPEND privilege before any other processing: an unprivileged
caller always gets -EPERM with no state change and no wakeup-source call,
whatever the request content, the filter flags, or the registry state —
in particular before the filter's silent success and before the
empty-name -EINVAL check. -/
theorem unprivileged_always_eperm (limit : Nat) (screen sensor : Bool)
    (buf : List Char) (now : Nat) (st : WlState) :
    pm_wake_lock false limit screen sensor buf now st = (-EPERM, st, none) ∧
    pm_wake_unlock false limit buf st = (-EPERM, st) := by
  constructor <;> rfl

/-- Claim C4: whenever the acquisition filter vetoes a privileged,
non-empty-name acquire request, `pm_wake_lock` returns 0 (success) while
leaving the registry state — name index, recency ordering, live count —
exactly as it was, creating no record and making no wakeup-source call. -/
theorem veto_is_silent_success (limit : Nat) (screen sensor : Bool)
    (buf : List Char) (now : Nat) (st : WlState)
    (hlen : (buf.takeWhile (fun c => !isspace c)).length ≠ 0)
    (hveto : (screen && should_block_wakelock sensor buf) = true) :
    pm_wake_lock true limit screen sensor buf now st = (0, st, none) := by
  simp [pm_wake_lock, hlen, hveto]

theorem veto_is_silent_success_witness :
    pm_wake_lock true 0 true false (("logd").data) 7 emptyState = (0, emptyState, none) :=
  veto_is_silent_success 0 true false (("logd").data) 7 emptyState (by decide) (by decide)

/-- Claim C3, counterexample: the substring checks run over the whole
request buffer, not over the name token.  For the request "x logd" (name
token "x", which contains no deny-list substring) with the screen off and
no sensor event, the claim says the filter must not veto (and the call
would then fail on the malformed trailing content " logd"); the code
vetoes it: silent success, no state change, no wakeup-source call. -/
theorem filter_matches_buffer_not_name_cex :
    pm_wake_lock true 0 true false (("x logd").data) 0 emptyState = (0, emptyState, none) ∧
    spec_veto_of_name true false ((("x logd").data).takeWhile (fun c => !isspace c)) = false := by
  constructor <;> decide

/-- Claim C3, amended: a privileged request is vetoed if and only if
`screen_is_off` is true, `sensor_event_active` is false, the ENTIRE
request buffer (name token plus any trailing content) contains none of
the always-allow substrings, and the buffer contains at least one
deny-list substring; the always-allow check takes precedence over the
deny list. -/
theorem filter_veto_characterization (screen sensor : Bool) (buf : List Char) :
    (screen && should_block_wakelock sensor buf)
      = (screen && !sensor && !(any_allow_sub buf) && any_deny_sub buf) := by
  cases screen <;> cases sensor <;> simp [should_block_wakelock]

/-- Claim C1, counterexample: with a configured maximum of 1,
`wakelocks_limit_exceeded` tests `count > limit` before the increment, so
acquiring a second distinct name still succeeds and the live count
reaches 2: the (N+1)-th distinct name does not fail and the count does
exceed N. -/
theorem capacity_off_by_one_cex :
    (pm_wake_lock true 1 false false (("a").data) 0 emptyState).1 = 0 ∧
    (pm_wake_lock true 1 false false (("b").data) 0
        (pm_wake_lock true 1 false false (("a").data) 0 emptyState).2.1).1 = 0 ∧
    (pm_wake_lock true 1 false false (("b").data) 0
        (pm_wake_lock true 1 false false (("a").data) 0 emptyState).2.1).2.1.count = 2 := by
  refine ⟨?_, ?_, ?_⟩ <;> decide

/-- Claim C1, amended: with a configured maximum of N the registry admits
up to N+1 live records: re-acquiring an existing name always succeeds and
changes nothing; creating a new name fails with -ENOSPC (CapacityExceeded)
and creates nothing exactly when the live count already exceeds N, and
succeeds (incrementing the count) when the count is at most N; hence a
call never takes the live count beyond N+1. -/
theorem capacity_enforcement (limit : Nat) (hl : 0 < limit) (name : List Char)
    (len now : Nat) (st : WlState) :
    (∀ wl, wl_find name len st.tree = some wl →
        wakelock_lookup_add limit name len true now st = (.ok wl, st)) ∧
    (wl_find name len st.tree = none → limit < st.count →
        wakelock_lookup_add limit name len true now st = (.error (-ENOSPC), st)) ∧
    (wl_find name len st.tree = none → st.count ≤ limit →
        (wakelock_lookup_add limit name len true now st).2.count = st.count + 1) ∧
    (st.count ≤ limit + 1 →
        (wakelock_lookup_add limit name len true now st).2.count ≤ limit + 1) := by
  refine ⟨?_, ?_, ?_, ?_⟩
  · intro wl h
    simp [wakelock_lookup_add, h]
  · intro h hcnt
    simp [wakelock_lookup_add, h, wakelocks_limit_exceeded, hl, hcnt]
  · intro h hcnt
    simp [wakelock_lookup_add, h, wakelocks_limit_exceeded, hl,
      Nat.not_lt.mpr hcnt, increment_wakelocks_number]
  · intro hcnt
    cases h : wl_find name len st.tree with
    | some wl => simp [wakelock_lookup_add, h, hcnt]
    | none =>
        by_cases hx : limit < st.count
        · simp [wakelock_lookup_add, h, wakelocks_limit_exceeded, hl, hx, hcnt]
        · simp [wakelock_lookup_add, h, wakelocks_limit_exceeded, hl, hx,
            increment_wakelocks_number]
          omega

theorem capacity_enforcement_witness :
    (wakelock_lookup_add 1 (("a").data) 1 true 0 emptyState).2.count ≤ 2 :=
  (capacity_enforcement 1 (by decide) (("a").data) 1 0 emptyState).2.2.2 (by decide)

/-- Claim C5, counterexample: for the request "a\nb" the content after
the name token, "\nb", is present, is not purely a newline, and does not
parse as a u64 — the claim demands -EINVAL with no mutation — but the
code only parses when the FIRST trailing character is not a newline, so
it treats the timeout as absent, creates the lock "a" and returns 0. -/
theorem trailing_newline_not_einval_cex :
    pm_wake_lock true 0 false false (("a\nb").data) 3 emptyState =
      (0,
       { tree := .node .leaf { id := 0, name := ("a").data, active := false, last_time := 3 } .leaf,
         lru := [{ id := 0, name := ("a").data, active := false, last_time := 3 }],
         count := 0, nextId := 1 },
       some (.stayAwake 0)) ∧
    (("a\nb").data).drop 1 ≠ [] ∧
    (("a\nb").data).drop 1 ≠ ("\n").data ∧
    kstrtou64 (skip_spaces ((("a\nb").data).drop 1)) = none := by
  refine ⟨?_, ?_, ?_, ?_⟩ <;> decide

/-- Claim C5, amended: for every privileged acquire request that the
filter does not veto, whose first character after the name token exists
and is not a newline, and whose trailing content does not parse as an
unsigned 64-bit decimal integer after skipping leading whitespace, the
call fails with -EINVAL (InvalidArgument) and performs no registry
mutation and no wakeup-source call. -/
theorem malformed_timeout_einval (limit : Nat) (screen sensor : Bool)
    (buf : List Char) (now : Nat) (st : WlState)
    (hlen : (buf.takeWhile (fun c => !isspace c)).length ≠ 0)
    (hveto : (screen && should_block_wakelock sensor buf) = false)
    (hc : ∃ c rest, buf.drop ((buf.takeWhile (fun c => !isspace c)).length) = c :: rest ∧
            c ≠ '\n')
    (hparse : kstrtou64 (skip_spaces (buf.drop ((buf.takeWhile (fun c => !isspace c)).length)))
                = none) :
    pm_wake_lock true limit screen sensor buf now st = (-EINVAL, st, none) := by
  obtain ⟨c, rest, hdrop, hcn⟩ := hc
  rw [hdrop] at hparse
  simp [pm_wake_lock, hlen, hveto, hdrop, pm_parse_timeout, hcn, hparse]

theorem malformed_timeout_einval_witness :
    pm_wake_lock true 0 false false (("a x").data) 5 emptyState = (-EINVAL, emptyState, none) :=
  malformed_timeout_einval 0 false false (("a x").data) 5 emptyState
    (by decide) (by decide) ⟨' ', ("x").data, by decide, by decide⟩ (by decide)

/-- Claim C9, counterexample: for timeout_ns = 2^64 - 1 (a value
`kstrtou64` accepts) the u64 addition `timeout_ns + NSEC_PER_MSEC - 1`
wraps modulo 2^64, so the code passes 0 milliseconds to the wakeup
source, while the claimed ceiling is 18446744073710 — the deadline is
rounded down (to nothing), not up. -/
theorem timeout_overflow_rounds_down_cex :
    (pm_wake_lock true 0 false false (("n 18446744073709551615").data) 0 emptyState).2.2
      = some (.wakeupEvent 0 0) ∧
    (18446744073709551615 + (NSEC_PER_MSEC - 1)) / NSEC_PER_MSEC = 18446744073710 ∧
    timeout_msec 18446744073709551615 = 0 := by
  refine ⟨?_, ?_, ?_⟩ <;> decide

/-- Claim C9, amended: for every positive timeout_ns whose millisecond
ceiling fits an unsigned int (timeout_ns at most (2^32 - 1) * 10^6 ns,
about 49.7 days) the deadline passed to the wakeup source is exactly the
timeout converted to whole milliseconds rounded up — at least the
requested duration, exceeding it by less than one millisecond — and in
particular timeout_ns = 1 yields 1 millisecond; beyond that range the
64-bit addition can wrap (and the value is truncated to 32 bits), so the
deadline can round down. -/
theorem timeout_rounding_up (t : Nat) (h0 : 0 < t)
    (hb : t ≤ (UINT_MOD - 1) * NSEC_PER_MSEC) :
    t ≤ timeout_msec t * NSEC_PER_MSEC ∧
    timeout_msec t * NSEC_PER_MSEC < t + NSEC_PER_MSEC ∧
    1 ≤ timeout_msec t := by
  have hb' : t ≤ (4294967296 - 1) * 1000000 := by
    simpa [UINT_MOD, NSEC_PER_MSEC] using hb
  simp only [timeout_msec, NSEC_PER_MSEC, U64_MOD, UINT_MOD]
  have h64 : (2 : Nat) ^ 64 = 18446744073709551616 := by norm_num
  have h32 : (2 : Nat) ^ 32 = 4294967296 := by norm_num
  rw [h64, h32]
  omega

theorem timeout_rounding_up_witness :
    1 ≤ timeout_msec 1 * NSEC_PER_MSEC ∧
    timeout_msec 1 * NSEC_PER_MSEC < 1 + NSEC_PER_MSEC ∧
    1 ≤ timeout_msec 1 :=
  timeout_rounding_up 1 (by decide) (by norm_num [UINT_MOD, NSEC_PER_MSEC])
theorem gc_scan_active_mem (now : Nat) (l : List Wakelock) (w : Wakelock)
    (hw : w ∈ l) (ha : w.active = true) : w ∈ (gc_scan now l).survivors := by
  induction l with
  | nil => cases hw
  | cons x rest ih =>
      by_cases hidle : idle_ns now x.last_time < WL_GC_TIME_NS
      · simpa [gc_scan, hidle] using hw
      · rcases List.mem_cons.mp hw with hxw | hwr
        · subst hxw
          simp [gc_scan, hidle, ha]
        · by_cases hx : x.active = true
          · simp [gc_scan, hidle, hx]
            exact Or.inr (ih hwr)
          · have hx' : x.active = false := by simpa using hx
            simp [gc_scan, hidle, hx']
            exact ih hwr

theorem gc_scan_destroyed_inactive (now : Nat) (l : List Wakelock) :
    ∀ d ∈ (gc_scan now l).destroyed, d.active = false := by
  induction l with
  | nil => simp [gc_scan]
  | cons x rest ih =>
      by_cases hidle : idle_ns now x.last_time < WL_GC_TIME_NS
      · simp [gc_scan, hidle]
      · by_cases hx : x.active = true
        · simpa [gc_scan, hidle, hx] using ih
        · intro d hd
          have hx' : x.active = false := by simpa using hx
          rcases List.mem_cons.mp (by simpa [gc_scan, hidle, hx'] using hd) with h | h
          · rw [h]; exact hx'
          · exact ih d h

theorem gc_scan_destroyed_sub (now : Nat) (l : List Wakelock) :
    ∀ d ∈ (gc_scan now l).destroyed, d ∈ l := by
  induction l with
  | nil => simp [gc_scan]
  | cons x rest ih =>
      by_cases hidle : idle_ns now x.last_time < WL_GC_TIME_NS
      · simp [gc_scan, hidle]
      · by_cases hx : x.active = true
        · intro d hd
          exact List.mem_cons_of_mem x (ih d (by simpa [gc_scan, hidle, hx] using hd))
        · intro d hd
          have hx' : x.active = false := by simpa using hx
          rcases List.mem_cons.mp (by simpa [gc_scan, hidle, hx'] using hd) with h | h
          · rw [h]; exact List.mem_cons_self x rest
          · exact List.mem_cons_of_mem x (ih d h)

theorem graft_toList (a b : Wltree) :
    (Wltree.graft a b).toList = a.toList ++ b.toList := by
  induction a with
  | leaf => simp [Wltree.graft, Wltree.toList]
  | node l wl r ihl ihr => simp [Wltree.graft, Wltree.toList, ihr]

theorem rb_erase_mem (i : Nat) (t : Wltree) (w : Wakelock)
    (hw : w ∈ t.toList) (hne : w.id ≠ i) : w ∈ (rb_erase_ i t).toList := by
  induction t with
  | leaf => simp [Wltree.toList] at hw
  | node l x r ihl ihr =>
      have hw' : w ∈ l.toList ∨ w = x ∨ w ∈ r.toList := by
        simpa [Wltree.toList] using hw
      rcases hw' with h | h | h
      · by_cases hx : x.id = i
        · simp [rb_erase_, hx, graft_toList]
          exact Or.inl (ihl h)
        · simp [rb_erase_, hx, Wltree.toList]
          exact Or.inl (ihl h)
      · subst h
        by_cases hx : w.id = i
        · exact absurd hx hne
        · simp [rb_erase_, hx, Wltree.toList]
      · by_cases hx : x.id = i
        · simp [rb_erase_, hx, graft_toList]
          exact Or.inr (ihr h)
        · simp [rb_erase_, hx, Wltree.toList]
          exact Or.inr (Or.inr (ihr h))

theorem foldl_erase_mem (w : Wakelock) (ds : List Wakelock) (t : Wltree)
    (hne : ∀ d ∈ ds, d.id ≠ w.id) (hw : w ∈ t.toList) :
    w ∈ (ds.foldl (fun t wl => rb_erase_ wl.id t) t).toList := by
  induction ds generalizing t with
  | nil => simpa using hw
  | cons d ds ih =>
      simp only [List.foldl_cons]
      exact ih (rb_erase_ d.id t)
        (fun x hx => hne x (List.mem_cons_of_mem d hx))
        (rb_erase_mem d.id t w hw (fun h => hne d (List.mem_cons_self d ds) h.symm))

theorem foldl_decrement (limit c : Nat) (ds : List Wakelock) :
    ds.foldl (fun n _ => decrement_wakelocks_number limit n) c
      = if 0 < limit then c - ds.length else c := by
  induction ds generalizing c with
  | nil => simp
  | cons d ds ih =>
      rw [List.foldl_cons, ih]
      by_cases hl : 0 < limit <;> simp [decrement_wakelocks_number, hl]
      omega

/-- Claim C2: a record whose `active` flag is true at the instant the
sweep reads it is never destroyed: it stays in the recency ordering, it
is not in the destroyed set (every destroyed record was read inactive),
it stays in the name index, and the only live-count decrements the sweep
makes are one per destroyed (inactive) record — regardless of how large
the record's idle age is. -/
theorem gc_never_destroys_active (limit now : Nat) (st : WlState) (wl : Wakelock)
    (hmem : wl ∈ st.lru) (hact : wl.active = true)
    (hids : ∀ x ∈ st.lru, ∀ y ∈ st.lru, x.id = y.id → x = y) :
    wl ∈ (__wakelocks_gc limit now st).lru ∧
    wl ∉ (gc_scan now st.lru.reverse).destroyed ∧
    (∀ d ∈ (gc_scan now st.lru.reverse).destroyed, d.active = false) ∧
    (wl ∈ st.tree.toList → wl ∈ (__wakelocks_gc limit now st).tree.toList) ∧
    (__wakelocks_gc limit now st).count
      = (if 0 < limit then st.count - (gc_scan now st.lru.reverse).destroyed.length
         else st.count) := by
  have hrev : wl ∈ st.lru.reverse := List.mem_reverse.mpr hmem
  have hdin := gc_scan_destroyed_inactive now st.lru.reverse
  have hdsub := gc_scan_destroyed_sub now st.lru.reverse
  have hnotd : wl ∉ (gc_scan now st.lru.reverse).destroyed := by
    intro hd
    have hf := hdin wl hd
    rw [hact] at hf
    exact Bool.noConfusion hf
  refine ⟨?_, hnotd, hdin, ?_, ?_⟩
  · show wl ∈ (gc_scan now st.lru.reverse).survivors.reverse
    exact List.mem_reverse.mpr (gc_scan_active_mem now st.lru.reverse wl hrev hact)
  · intro htree
    have hne : ∀ d ∈ (gc_scan now st.lru.reverse).destroyed, d.id ≠ wl.id := by
      intro d hd hdid
      have hdl : d ∈ st.lru := List.mem_reverse.mp (hdsub d hd)
      have hdw : d = wl := hids d hdl wl hmem hdid
      subst hdw
      exact hnotd hd
    exact foldl_erase_mem wl _ st.tree hne htree
  · exact foldl_decrement limit st.count _

theorem gc_never_destroys_active_witness :
    { id := 0, name := ("a").data, active := true, last_time := 0 } ∈
      (__wakelocks_gc 0 400000000000
        { tree := .node .leaf { id := 0, name := ("a").data, active := true, last_time := 0 } .leaf,
          lru := [{ id := 0, name := ("a").data, active := true, last_time := 0 }],
          count := 1, nextId := 1 }).lru :=
  (gc_never_destroys_active 0 400000000000
    { tree := .node .leaf { id := 0, name := ("a").data, active := true, last_time := 0 } .leaf,
      lru := [{ id := 0, name := ("a").data, active := true, last_time := 0 }],
      count := 1, nextId := 1 }
    { id := 0, name := ("a").data, active := true, last_time := 0 }
    (by decide) (by decide) (by decide)).1

/-- Claim C6: the sweep scans the LRU list from least- to most-recently
touched (the reverse of the recency list) and stops at the first record
whose idle age is below the 300 s threshold: of the over-threshold run
before that stopping point the inactive records are exactly the ones
destroyed (erased from the name index, deleted from the recency list,
live count decremented once each) while active ones are kept without
terminating the scan, and everything at and after the stopping point
survives untouched. -/
theorem gc_sweep_characterization (limit now : Nat) (st : WlState) (l : List Wakelock) :
    gc_scan now l =
      { survivors := (l.takeWhile (gc_past_threshold now)).filter (fun w => w.active)
            ++ l.dropWhile (gc_past_threshold now),
        destroyed := (l.takeWhile (gc_past_threshold now)).filter (fun w => !w.active) } ∧
    (__wakelocks_gc limit now st).lru = ((gc_scan now st.lru.reverse).survivors).reverse ∧
    (__wakelocks_gc limit now st).tree
      = (gc_scan now st.lru.reverse).destroyed.foldl (fun t wl => rb_erase_ wl.id t) st.tree ∧
    (__wakelocks_gc limit now st).count
      = (if 0 < limit then st.count - (gc_scan now st.lru.reverse).destroyed.length
         else st.count) := by
  refine ⟨?_, rfl, rfl, foldl_decrement limit st.count _⟩
  induction l with
  | nil => simp [gc_scan]
  | cons x rest ih =>
      by_cases hidle : idle_ns now x.last_time < WL_GC_TIME_NS
      · have hp : gc_past_threshold now x = false := by
          simp [gc_past_threshold]
          omega
        simp [gc_scan, hidle, hp]
      · have hp : gc_past_threshold now x = true := by
          simp [gc_past_threshold]
          omega
        by_cases hx : x.active = true
        · simp [gc_scan, hidle, hx, hp, ih]
        · have hx' : x.active = false := by simpa using hx
          simp [gc_scan, hidle, hx', hp, ih]

theorem kstrndup_nul_free (s : List Char) (len : Nat) (h : ∀ c ∈ s, c ≠ NUL) :
    kstrndup_ s len = s.take len := by
  unfold kstrndup_
  refine List.takeWhile_eq_self_iff.mpr ?_
  intro c hc
  have hcs : c ≠ NUL := h c (List.take_subset len s hc)
  simp [hcs]

theorem strncmp_self_take (s : List Char) (len : Nat) (hnul : ∀ c ∈ s, c ≠ NUL) :
    strncmp_ s (s.take len) len = 0 := by
  induction s generalizing len with
  | nil => cases len <;> simp [strncmp_]
  | cons c cs ih =>
      cases len with
      | zero => simp [strncmp_]
      | succ n =>
          have hc : (c == NUL) = false := by
            have := hnul c (List.mem_cons_self c cs)
            simp [this]
          simp [List.take_succ_cons, strncmp_, hc]
          exact ih n (fun x hx => hnul x (List.mem_cons_of_mem c hx))

theorem wl_diff_refl (name : List Char) (len : Nat) (i : Nat) (a : Bool) (t : Nat)
    (hnul : ∀ c ∈ name, c ≠ NUL) :
    wl_diff name len { id := i, name := kstrndup_ name len, active := a, last_time := t } = 0 := by
  have hdup : kstrndup_ name len = name.take len := kstrndup_nul_free name len hnul
  have hlen : ¬ (len < (name.take len).length) := by
    simp [List.length_take]
  simp [wl_diff, hdup, strncmp_self_take name len hnul, hlen]

theorem wl_find_insertAt (name : List Char) (len : Nat) (w : Wakelock) (t : Wltree)
    (hw : wl_diff name len w = 0) (hnone : wl_find name len t = none) :
    wl_find name len (wl_insertAt name len w t) = some w := by
  induction t with
  | leaf => simp [wl_insertAt, wl_find, hw]
  | node l x r ihl ihr =>
      by_cases hd0 : wl_diff name len x = 0
      · simp [wl_find, hd0] at hnone
      · by_cases hdlt : wl_diff name len x < 0
        · have hl : wl_find name len l = none := by
            simpa [wl_find, hd0, hdlt] using hnone
          simp [wl_insertAt, hdlt, wl_find, hd0]
          exact ihl hl
        · have hr : wl_find name len r = none := by
            simpa [wl_find, hd0, hdlt] using hnone
          simp [wl_insertAt, hdlt, wl_find, hd0]
          exact ihr hr

/-- Claim C7: `wakelock_lookup_add` with `add_if_not_found = true` is
idempotent: if a first call (from any state) returned a record and a
state, a second call with the same name from that state returns the very
same record and leaves the state — name index, recency ordering, live
count and all — exactly as the first call left it. -/
theorem find_or_create_idempotent (limit : Nat) (name : List Char) (len now now2 : Nat)
    (st st1 : WlState) (wl : Wakelock)
    (hnul : ∀ c ∈ name, c ≠ NUL)
    (h1 : wakelock_lookup_add limit name len true now st = (.ok wl, st1)) :
    wakelock_lookup_add limit name len true now2 st1 = (.ok wl, st1) := by
  unfold wakelock_lookup_add at h1 ⊢
  cases hf : wl_find name len st.tree with
  | some w =>
      rw [hf] at h1
      simp only [Prod.mk.injEq, Except.ok.injEq] at h1
      obtain ⟨hwl, hst⟩ := h1
      subst hwl
      subst hst
      rw [hf]
  | none =>
      rw [hf] at h1
      by_cases hex : wakelocks_limit_exceeded limit st.count = true
      · simp [hex] at h1
      · simp only [Bool.not_true, Bool.false_eq_true, if_false, hex, if_true,
          Bool.not_eq_true] at h1
        simp only [Prod.mk.injEq, Except.ok.injEq] at h1
        obtain ⟨hwl, hst⟩ := h1
        have hfind2 : wl_find name len st1.tree = some wl := by
          rw [← hst, ← hwl]
          exact wl_find_insertAt name len _ st.tree
            (wl_diff_refl name len st.nextId false now hnul) hf
        rw [hfind2]

theorem find_or_create_idempotent_witness :
    wakelock_lookup_add 0 (("a").data) 1 true 7
      { tree := .node .leaf { id := 0, name := ("a").data, active := false, last_time := 5 } .leaf,
        lru := [{ id := 0, name := ("a").data, active := false, last_time := 5 }],
        count := 0, nextId := 1 }
      = (.ok { id := 0, name := ("a").data, active := false, last_time := 5 },
         { tree := .node .leaf { id := 0, name := ("a").data, active := false, last_time := 5 } .leaf,
           lru := [{ id := 0, name := ("a").data, active := false, last_time := 5 }],
           count := 0, nextId := 1 }) :=
  find_or_create_idempotent 0 (("a").data) 1 5 7 emptyState _ _
    (by decide) (by rfl)

theorem char_toNat_pos (c : Char) (h : c ≠ NUL) : 0 < c.toNat := by
  rcases Nat.eq_zero_or_pos c.toNat with h0 | h0
  · exfalso
    apply h
    have h1 : c.val = NUL.val := by
      have h2 : NUL.val = 0 := by decide
      rw [h2]
      apply UInt32.toNat.inj
      simpa [Char.toNat] using h0
    exact Char.ext h1
  · exact h0

theorem strncmp_self_append (p r : List Char) :
    strncmp_ p (p ++ r) p.length = 0 := by
  induction p with
  | nil => simp [strncmp_]
  | cons a as ih =>
      simp [List.cons_append, strncmp_, ih]

theorem strncmp_append_pos (p : List Char) (c : Char) (q : List Char) (len : Nat)
    (hnulp : ∀ x ∈ p, x ≠ NUL) (hc : c ≠ NUL) (hlen : p.length < len) :
    0 < strncmp_ (p ++ c :: q) p len := by
  induction p generalizing len with
  | nil =>
      cases len with
      | zero => simp at hlen
      | succ n =>
          have := char_toNat_pos c hc
          simp [strncmp_]
          omega
  | cons a as ih =>
      cases len with
      | zero => simp at hlen
      | succ n =>
          have ha : (a == NUL) = false := by
            simp [hnulp a (List.mem_cons_self a as)]
          simp [List.cons_append, strncmp_, ha]
          exact ih n (fun x hx => hnulp x (List.mem_cons_of_mem a hx)) (by simpa using hlen)

theorem wakelock_lookup_add_creates (limit : Nat) (name : List Char) (len now : Nat)
    (st : WlState)
    (hf : wl_find name len st.tree = none)
    (hex : wakelocks_limit_exceeded limit st.count = false) :
    wakelock_lookup_add limit name len true now st =
      (.ok { id := st.nextId, name := kstrndup_ name len, active := false, last_time := now },
       { tree := wl_insertAt name len
           { id := st.nextId, name := kstrndup_ name len, active := false, last_time := now }
           st.tree,
         lru := { id := st.nextId, name := kstrndup_ name len, active := false, last_time := now }
           :: st.lru,
         count := increment_wakelocks_number limit st.count,
         nextId := st.nextId + 1 }) := by
  simp [wakelock_lookup_add, hf, hex]

/-- Claim C8: a name and a strict extension of it are distinct keys.  For
any name `p` and strict extension `p ++ c :: q`, creating both from the
empty registry yields two separate records; looking up `p` returns the
record named `p` and looking up the extension returns the record named
`p ++ c :: q`; moreover the comparison used by the search loop
(`strncmp` bounded by the query length plus the `wl->name[len]`
terminator check) never compares a name equal to a strict extension of
it, in either direction, whatever the other record fields are. -/
theorem strict_extension_keys_distinct (limit : Nat) (p : List Char) (c : Char)
    (q : List Char) (now1 now2 : Nat)
    (hnulp : ∀ x ∈ p, x ≠ NUL) (hc : c ≠ NUL) (hnulq : ∀ x ∈ q, x ≠ NUL) :
    ∃ wlP wlN st1 st2,
      wakelock_lookup_add limit p p.length true now1 emptyState = (.ok wlP, st1) ∧
      wakelock_lookup_add limit (p ++ c :: q) (p ++ c :: q).length true now2 st1
        = (.ok wlN, st2) ∧
      wlP.name = p ∧ wlN.name = p ++ c :: q ∧ wlP.id ≠ wlN.id ∧
      st2.tree.toList = [wlP, wlN] ∧
      wl_find p p.length st2.tree = some wlP ∧
      wl_find (p ++ c :: q) (p ++ c :: q).length st2.tree = some wlN ∧
      (∀ i a t, wl_diff (p ++ c :: q) (p ++ c :: q).length
          { id := i, name := p, active := a, last_time := t } ≠ 0) ∧
      (∀ i a t, wl_diff p p.length
          { id := i, name := p ++ c :: q, active := a, last_time := t } ≠ 0) := by
  have hnuln : ∀ x ∈ p ++ c :: q, x ≠ NUL := by
    intro x hx
    rcases List.mem_append.mp hx with h | h
    · exact hnulp x h
    · rcases List.mem_cons.mp h with h | h
      · subst h; exact hc
      · exact hnulq x h
  have hdp : kstrndup_ p p.length = p := by
    rw [kstrndup_nul_free p p.length hnulp, List.take_length]
  have hdn : kstrndup_ (p ++ c :: q) (p ++ c :: q).length = p ++ c :: q := by
    rw [kstrndup_nul_free _ _ hnuln, List.take_length]
  have hlenlt : p.length < (p ++ c :: q).length := by
    simp
  have hself : strncmp_ p p p.length = 0 := by
    have h := strncmp_self_take p p.length hnulp
    rwa [List.take_length] at h
  have hselfN : strncmp_ (p ++ c :: q) (p ++ c :: q) (p ++ c :: q).length = 0 := by
    have h := strncmp_self_take (p ++ c :: q) (p ++ c :: q).length hnuln
    rwa [List.take_length] at h
  have hpos : 0 < strncmp_ (p ++ c :: q) p (p ++ c :: q).length :=
    strncmp_append_pos p c q _ hnulp hc hlenlt
  have hne0 : ¬ (strncmp_ (p ++ c :: q) p (p ++ c :: q).length = 0) := by omega
  have hnneg : ¬ (strncmp_ (p ++ c :: q) p (p ++ c :: q).length < 0) := by omega
  have hdiffN : ∀ i a t, wl_diff (p ++ c :: q) (p ++ c :: q).length
      { id := i, name := p, active := a, last_time := t } =
        strncmp_ (p ++ c :: q) p (p ++ c :: q).length := by
    intro i a t
    simp only [wl_diff, beq_iff_eq]
    rw [if_neg hne0]
  have hdiffP : ∀ i a t, wl_diff p p.length
      { id := i, name := p ++ c :: q, active := a, last_time := t } = -1 := by
    intro i a t
    simp only [wl_diff, beq_iff_eq]
    rw [if_pos (strncmp_self_append p (c :: q)), if_pos hlenlt]
  have hdiffPP : ∀ i a t, wl_diff p p.length
      { id := i, name := p, active := a, last_time := t } = 0 := by
    intro i a t
    simp only [wl_diff, beq_iff_eq]
    rw [if_pos hself, if_neg (Nat.lt_irrefl p.length)]
  have hdiffNN : ∀ i a t, wl_diff (p ++ c :: q) (p ++ c :: q).length
      { id := i, name := p ++ c :: q, active := a, last_time := t } = 0 := by
    intro i a t
    simp only [wl_diff, beq_iff_eq]
    rw [if_pos hselfN, if_neg (Nat.lt_irrefl (p ++ c :: q).length)]
  have hex0 : wakelocks_limit_exceeded limit emptyState.count = false := by
    show wakelocks_limit_exceeded limit 0 = false
    simp [wakelocks_limit_exceeded]
  have hex1 : wakelocks_limit_exceeded limit (increment_wakelocks_number limit 0) = false := by
    by_cases hl : 0 < limit <;>
      simp [wakelocks_limit_exceeded, increment_wakelocks_number, hl]
    omega
  have hfind0 : wl_find p p.length emptyState.tree = none := rfl
  have heq1 := wakelock_lookup_add_creates limit p p.length now1 emptyState hfind0 hex0
  have hfindN : wl_find (p ++ c :: q) (p ++ c :: q).length
      (Wltree.node .leaf { id := 0, name := p, active := false, last_time := now1 } .leaf)
        = none := by
    simp only [wl_find, beq_iff_eq]
    rw [hdiffN 0 false now1, if_neg hne0, if_neg hnneg]
  have hfindN' : wl_find (p ++ c :: q) (p ++ c :: q).length
      ({ tree := .node .leaf { id := 0, name := p, active := false, last_time := now1 } .leaf,
         lru := [{ id := 0, name := p, active := false, last_time := now1 }],
         count := increment_wakelocks_number limit 0,
         nextId := 1 } : WlState).tree = none := hfindN
  have heq2 := wakelock_lookup_add_creates limit (p ++ c :: q) (p ++ c :: q).length now2
    { tree := .node .leaf { id := 0, name := p, active := false, last_time := now1 } .leaf,
      lru := [{ id := 0, name := p, active := false, last_time := now1 }],
      count := increment_wakelocks_number limit 0,
      nextId := 1 } hfindN' hex1
  rw [hdn] at heq2
  have hins : wl_insertAt (p ++ c :: q) (p ++ c :: q).length
      { id := 1, name := p ++ c :: q, active := false, last_time := now2 }
      (Wltree.node .leaf { id := 0, name := p, active := false, last_time := now1 } .leaf)
      = Wltree.node .leaf { id := 0, name := p, active := false, last_time := now1 }
          (.node .leaf { id := 1, name := p ++ c :: q, active := false, last_time := now2 } .leaf) := by
    simp only [wl_insertAt]
    rw [hdiffN 0 false now1, if_neg hnneg]
  rw [hins] at heq2
  refine ⟨{ id := 0, name := p, active := false, last_time := now1 },
          { id := 1, name := p ++ c :: q, active := false, last_time := now2 },
          { tree := .node .leaf { id := 0, name := p, active := false, last_time := now1 } .leaf,
            lru := [{ id := 0, name := p, active := false, last_time := now1 }],
            count := increment_wakelocks_number limit 0, nextId := 1 },
          { tree := .node .leaf { id := 0, name := p, active := false, last_time := now1 }
              (.node .leaf { id := 1, name := p ++ c :: q, active := false, last_time := now2 } .leaf),
            lru := [{ id := 1, name := p ++ c :: q, active := false, last_time := now2 },
                    { id := 0, name := p, active := false, last_time := now1 }],
            count := increment_wakelocks_number limit (increment_wakelocks_number limit 0),
            nextId := 2 },
          ?_, ?_, rfl, rfl, ?_, ?_, ?_, ?_, ?_, ?_⟩
  · rw [heq1, hdp]
    rfl
  · rw [heq2]
  · simp
  · simp [Wltree.toList]
  · simp only [wl_find, beq_iff_eq]
    rw [hdiffPP 0 false now1, if_pos rfl]
  · simp only [wl_find, beq_iff_eq]
    rw [hdiffN 0 false now1, if_neg hne0, if_neg hnneg, hdiffNN 1 false now2, if_pos rfl]
  · intro i a t
    rw [hdiffN i a t]
    exact hne0
  · intro i a t
    rw [hdiffP i a t]
    omega

theorem strict_extension_keys_distinct_witness :
    ∃ wlP wlN st1 st2,
      wakelock_lookup_add 0 (("ab").data) (("ab").data).length true 1 emptyState
        = (.ok wlP, st1) ∧
      wakelock_lookup_add 0 ((("ab").data) ++ 'c' :: (("d").data))
          ((("ab").data) ++ 'c' :: (("d").data)).length true 2 st1 = (.ok wlN, st2) ∧
      wlP.name = ("ab").data ∧ wlN.name = (("ab").data) ++ 'c' :: (("d").data) ∧
      wlP.id ≠ wlN.id ∧
      st2.tree.toList = [wlP, wlN] ∧
      wl_find (("ab").data) (("ab").data).length st2.tree = some wlP ∧
      wl_find ((("ab").data) ++ 'c' :: (("d").data))
          ((("ab").data) ++ 'c' :: (("d").data)).length st2.tree = some wlN ∧
      (∀ i a t, wl_diff ((("ab").data) ++ 'c' :: (("d").data))
          ((("ab").data) ++ 'c' :: (("d").data)).length
          { id := i, name := ("ab").data, active := a, last_time := t } ≠ 0) ∧
      (∀ i a t, wl_diff (("ab").data) (("ab").data).length
          { id := i, name := (("ab").data) ++ 'c' :: (("d").data), active := a,
            last_time := t } ≠ 0) :=
  strict_extension_keys_distinct 0 (("ab").data) 'c' (("d").data) 1 2
    (by decide) (by decide) (by decide)
